import Mathlib

set_option linter.unusedVariables false

/-! Verification of the Claude Code usage-tracking VS Code extension's
data pipeline: the pricing resolver and cost computation
(src/webview/dashboardPanel.ts), the JSONL log parser (services/logParser.ts),
the time-range filter and the aggregator.  Floating-point arithmetic is
modelled exactly over ℚ; JS strings are modelled as Lean strings with
explicit models of `includes` and `toLowerCase`. -/

/-- JS `String.prototype.includes` on character lists:
`listIncludes pat l` is true iff `pat` occurs contiguously inside `l`. -/
def listIncludes (pat : List Char) : List Char → Bool
  | [] => pat.isEmpty
  | c :: t => pat.isPrefixOf (c :: t) || listIncludes pat t

/-- JS `hay.includes(pat)`. -/
def jsIncludes (hay pat : String) : Bool :=
  listIncludes pat.toList hay.toList

/-- JS `String.prototype.toLowerCase`, modelled character-wise (the
model-name alphabet is ASCII, where the two agree). -/
def jsToLower (s : String) : String :=
  ⟨s.data.map Char.toLower⟩

/-- Pricing record from dashboardPanel.ts (`interface ModelPricing`). -/
structure ModelPricing where
  input : ℚ
  output : ℚ
  cacheWrite : ℚ
  cacheRead : ℚ
deriving DecidableEq, Repr

/-- The `PRICING` table (per-million-token rates), in declaration order. -/
def PRICING : List (String × ModelPricing) := [
  ("opus-4.5", ⟨5.0, 25.0, 6.25, 0.50⟩),
  ("opus-4.1", ⟨15.0, 75.0, 18.75, 1.50⟩),
  ("opus-4", ⟨15.0, 75.0, 18.75, 1.50⟩),
  ("opus-3", ⟨15.0, 75.0, 18.75, 1.50⟩),
  ("sonnet-4.5", ⟨3.0, 15.0, 3.75, 0.30⟩),
  ("sonnet-4", ⟨3.0, 15.0, 3.75, 0.30⟩),
  ("sonnet-3.7", ⟨3.0, 15.0, 3.75, 0.30⟩),
  ("sonnet-3.5", ⟨3.0, 15.0, 3.75, 0.30⟩),
  ("haiku-4.5", ⟨1.0, 5.0, 1.25, 0.10⟩),
  ("haiku-3.5", ⟨0.80, 4.0, 1.0, 0.08⟩),
  ("haiku-3", ⟨0.25, 1.25, 0.30, 0.03⟩)]

/-- Lookup of `PRICING[key]`; every key the resolver uses is present in the table. -/
def priceOf (key : String) : ModelPricing :=
  ((PRICING.find? (fun p => p.1 == key)).map Prod.snd).getD ⟨0, 0, 0, 0⟩

/-- The tier key selected by `getModelPricing`'s ordered case-insensitive
substring checks (dashboardPanel.ts lines 598-656).  `getModelPricing`
returns the `PRICING` entry for this key. -/
def getModelTierName (model : String) : Option String :=
  let modelLower := jsToLower model
  if jsIncludes modelLower "opus-4-5" || jsIncludes modelLower "opus-4.5" ||
     jsIncludes modelLower "claude-opus-4-5" || jsIncludes modelLower "claude-opus-4.5" then
    some "opus-4.5"
  else if jsIncludes modelLower "opus-4-1" || jsIncludes modelLower "opus-4.1" ||
     jsIncludes modelLower "claude-opus-4-1" || jsIncludes modelLower "claude-opus-4.1" then
    some "opus-4.1"
  else if jsIncludes modelLower "opus-4" || jsIncludes modelLower "claude-opus-4" then
    some "opus-4"
  else if jsIncludes modelLower "opus-3" || jsIncludes modelLower "claude-3-opus" then
    some "opus-3"
  else if jsIncludes modelLower "sonnet-4-5" || jsIncludes modelLower "sonnet-4.5" ||
     jsIncludes modelLower "claude-sonnet-4-5" || jsIncludes modelLower "claude-sonnet-4.5" then
    some "sonnet-4.5"
  else if jsIncludes modelLower "sonnet-4" || jsIncludes modelLower "claude-sonnet-4" then
    some "sonnet-4"
  else if jsIncludes modelLower "sonnet-3-7" || jsIncludes modelLower "sonnet-3.7" ||
     jsIncludes modelLower "claude-3-7-sonnet" || jsIncludes modelLower "claude-3.7-sonnet" then
    some "sonnet-3.7"
  else if jsIncludes modelLower "sonnet-3-5" || jsIncludes modelLower "sonnet-3.5" ||
     jsIncludes modelLower "claude-3-5-sonnet" || jsIncludes modelLower "claude-3.5-sonnet" then
    some "sonnet-3.5"
  else if jsIncludes modelLower "haiku-4-5" || jsIncludes modelLower "haiku-4.5" ||
     jsIncludes modelLower "claude-haiku-4-5" || jsIncludes modelLower "claude-haiku-4.5" then
    some "haiku-4.5"
  else if jsIncludes modelLower "haiku-3-5" || jsIncludes modelLower "haiku-3.5" ||
     jsIncludes modelLower "claude-3-5-haiku" || jsIncludes modelLower "claude-3.5-haiku" then
    some "haiku-3.5"
  else if jsIncludes modelLower "haiku-3" || jsIncludes modelLower "claude-3-haiku" then
    some "haiku-3"
  else
    none

/-- Function `getModelPricing` (dashboardPanel.ts lines 598-656). -/
def getModelPricing (model : String) : Option ModelPricing :=
  (getModelTierName model).map priceOf

/-- Function `calculateCost` (dashboardPanel.ts lines 661-681); token counts are
non-negative integers, rates are per million tokens. -/
def calculateCost (model : String)
    (inputTokens outputTokens cacheCreationTokens cacheReadTokens : ℕ) : ℚ :=
  match getModelPricing model with
  | none => 0
  | some pricing =>
    let inputCost := (inputTokens * pricing.input) / 1000000
    let outputCost := (outputTokens * pricing.output) / 1000000
    let cacheWriteCost := (cacheCreationTokens * pricing.cacheWrite) / 1000000
    let cacheReadCost := (cacheReadTokens * pricing.cacheRead) / 1000000
    inputCost + outputCost + cacheWriteCost + cacheReadCost

/-- Function `getModelDisplayName` (dashboardPanel.ts lines 686-724). -/
def getModelDisplayName (model : String) : String :=
  let modelLower := jsToLower model
  if jsIncludes modelLower "opus-4-5" || jsIncludes modelLower "opus-4.5" then
    "Claude Opus 4.5"
  else if jsIncludes modelLower "opus-4-1" || jsIncludes modelLower "opus-4.1" then
    "Claude Opus 4.1"
  else if jsIncludes modelLower "opus-4" then
    "Claude Opus 4"
  else if jsIncludes modelLower "opus-3" || jsIncludes modelLower "claude-3-opus" then
    "Claude Opus 3"
  else if jsIncludes modelLower "sonnet-4-5" || jsIncludes modelLower "sonnet-4.5" then
    "Claude Sonnet 4.5"
  else if jsIncludes modelLower "sonnet-4" then
    "Claude Sonnet 4"
  else if jsIncludes modelLower "sonnet-3-7" || jsIncludes modelLower "sonnet-3.7" then
    "Claude Sonnet 3.7"
  else if jsIncludes modelLower "sonnet-3-5" || jsIncludes modelLower "sonnet-3.5" then
    "Claude Sonnet 3.5"
  else if jsIncludes modelLower "haiku-4-5" || jsIncludes modelLower "haiku-4.5" then
    "Claude Haiku 4.5"
  else if jsIncludes modelLower "haiku-3-5" || jsIncludes modelLower "haiku-3.5" then
    "Claude Haiku 3.5"
  else if jsIncludes modelLower "haiku-3" then
    "Claude Haiku 3"
  else
    model

/-! Log parser (services/logParser.ts).  A log line that is blank or fails
`JSON.parse` is skipped by the source and is modelled as simply absent from
the record list; the remaining records are modelled structurally. -/

/-- Nested `usage` block of a raw record (types/usage.ts `JsonlEntry`). -/
structure Usage where
  input_tokens : Option ℕ
  output_tokens : Option ℕ
  cache_creation_input_tokens : Option ℕ
  cache_read_input_tokens : Option ℕ
deriving DecidableEq, Repr

/-- Nested `message` block of a raw record. -/
structure Message where
  id : Option String
  model : Option String
  usage : Option Usage
deriving DecidableEq, Repr

/-- Raw JSONL record (types/usage.ts `JsonlEntry`). -/
structure JsonlEntry where
  timestamp : String
  message : Option Message
  sessionId : Option String
  requestId : Option String
  costUSD : Option ℚ
  cwd : Option String
deriving DecidableEq, Repr

/-- Canonical usage entry (types/usage.ts `UsageEntry`). -/
structure UsageEntry where
  timestamp : String
  model : String
  inputTokens : ℕ
  outputTokens : ℕ
  cacheCreationTokens : ℕ
  cacheReadTokens : ℕ
  cost : ℚ
  sessionId : String
  projectPath : String
deriving DecidableEq, Repr

/-- JS truthiness for an optional string: an absent or empty string is
falsy (the source tests `entry.cwd`, `entry.message.id`, `entry.requestId`
with plain truthiness, not nullish coalescing). -/
def truthyStr : Option String → Option String
  | some s => if s = "" then none else some s
  | none => none

/-- State of `parseJsonlFile`'s line loop: the per-file `actualProjectPath`
variable and the process-wide `processedHashes` set (modelled as a list
without duplicates of interest; only membership is used). -/
structure ParseState where
  actualProjectPath : Option String
  processedHashes : List String
deriving DecidableEq, Repr

/-- Composite dedup key `` `${entry.message.id}:${entry.requestId}` ``,
defined exactly when both ids are present and truthy. -/
def dedupKey (entry : JsonlEntry) : Option String :=
  match entry.message with
  | none => none
  | some msg =>
    match truthyStr msg.id, truthyStr entry.requestId with
    | some mid, some rid => some (mid ++ ":" ++ rid)
    | _, _ => none

/-- Entry construction from a record whose `message.usage` block is present,
after the dedup check (logParser.ts lines 121-153): token counts default to
0, all-zero usage is suppressed, cost uses `costUSD` when present and
`calculateCost` otherwise. -/
def mkUsageEntry (sessionId encodedProjectName : String) (st : ParseState)
    (entry : JsonlEntry) (msg : Message) (usage : Usage) :
    ParseState × Option UsageEntry :=
  let inputTokens := usage.input_tokens.getD 0
  let outputTokens := usage.output_tokens.getD 0
  let cacheCreationTokens := usage.cache_creation_input_tokens.getD 0
  let cacheReadTokens := usage.cache_read_input_tokens.getD 0
  if inputTokens = 0 ∧ outputTokens = 0 ∧ cacheCreationTokens = 0 ∧ cacheReadTokens = 0 then
    (st, none)
  else
    let model := msg.model.getD "unknown"
    let cost := entry.costUSD.getD
      (calculateCost model inputTokens outputTokens cacheCreationTokens cacheReadTokens)
    (st, some {
      timestamp := entry.timestamp
      model := model
      inputTokens := inputTokens
      outputTokens := outputTokens
      cacheCreationTokens := cacheCreationTokens
      cacheReadTokens := cacheReadTokens
      cost := cost
      sessionId := entry.sessionId.getD sessionId
      projectPath := st.actualProjectPath.getD encodedProjectName })

/-- One iteration of `parseJsonlFile`'s loop (logParser.ts lines 97-158) on
an already-parsed record: update `actualProjectPath` from a truthy `cwd`,
then, when a usage block is present, run the dedup check and build the
entry. -/
def stepLine (sessionId encodedProjectName : String) (st : ParseState)
    (entry : JsonlEntry) : ParseState × Option UsageEntry :=
  let app := match st.actualProjectPath, truthyStr entry.cwd with
    | none, some c => some c
    | a, _ => a
  let st := { st with actualProjectPath := app }
  match entry.message with
  | none => (st, none)
  | some msg =>
    match msg.usage with
    | none => (st, none)
    | some usage =>
      match truthyStr msg.id, truthyStr entry.requestId with
      | some mid, some rid =>
        let hash := mid ++ ":" ++ rid
        if st.processedHashes.contains hash then
          (st, none)
        else
          mkUsageEntry sessionId encodedProjectName
            { st with processedHashes := hash :: st.processedHashes } entry msg usage
      | _, _ => mkUsageEntry sessionId encodedProjectName st entry msg usage

/-- The line loop of `parseJsonlFile` over a list of parsed records,
collecting the produced entries in order. -/
def processLines (sessionId encodedProjectName : String) :
    ParseState → List JsonlEntry → ParseState × List UsageEntry
  | st, [] => (st, [])
  | st, e :: rest =>
    let p := stepLine sessionId encodedProjectName st e
    let q := processLines sessionId encodedProjectName p.1 rest
    (q.1, match p.2 with | some u => u :: q.2 | none => q.2)

/-- Function `parseJsonlFile` (logParser.ts lines 82-164): the session id is
the base name of the file's directory, `actualProjectPath` starts at null
for each file, and `processedHashes` is shared across calls. -/
def parseJsonlFile (sessionId encodedProjectName : String)
    (processedHashes : List String) (records : List JsonlEntry) :
    List String × List UsageEntry :=
  let p := processLines sessionId encodedProjectName
    { actualProjectPath := none, processedHashes := processedHashes } records
  (p.1.processedHashes, p.2)

/-- One discovered .jsonl file: the base name of its containing directory
(the fallback session id) and its parsed records. -/
structure JsonlFile where
  sessionDirName : String
  records : List JsonlEntry
deriving DecidableEq, Repr

/-- Function `getFirstTimestamp` (logParser.ts lines 56-77): the first truthy
timestamp among the first ten lines of the file, used as the file ordering
key. -/
def getFirstTimestamp (f : JsonlFile) : Option String :=
  (f.records.take 10).findSome? (fun e => if e.timestamp = "" then none else some e.timestamp)

/-- Function `getAllUsageEntries` (logParser.ts lines 169-210).  The
filesystem under `~/.claude/projects` is modelled as `none` when the root
directory does not exist, and otherwise as the list of project folders
(folder name, contained .jsonl files).  Files are sorted by first
timestamp (`localeCompare`, modelled as lexicographic string order), parsed
with one shared dedup set, and the concatenated entries are sorted by
timestamp. -/
def getAllUsageEntries (root : Option (List (String × List JsonlFile))) : List UsageEntry :=
  match root with
  | none => []
  | some projectFolders =>
    let filesToProcess := projectFolders.flatMap (fun pf => pf.2.map (fun f => (f, pf.1)))
    let sortedFiles := filesToProcess.mergeSort (fun a b =>
      decide (((getFirstTimestamp a.1).getD "") ≤ ((getFirstTimestamp b.1).getD "")))
    let r := sortedFiles.foldl (fun (acc : List String × List UsageEntry) fp =>
      let p := parseJsonlFile fp.1.sessionDirName fp.2 acc.1 fp.1.records
      (p.1, acc.2 ++ p.2)) ([], [])
    r.2.mergeSort (fun a b => decide (a.timestamp ≤ b.timestamp))

/-- Time range selector (types/usage.ts `TimeRange`). -/
inductive TimeRange where
  | d7 | d30 | all
deriving DecidableEq, Repr

/-- Function `filterByTimeRange` (logParser.ts lines 215-225).  JS
`new Date(s)` is modelled by a parse function `parseDate` giving
milliseconds since the epoch, `none` for an invalid date; every comparison
against an invalid date is false, so such entries are dropped. -/
def filterByTimeRange (parseDate : String → Option ℤ) (now : ℤ)
    (entries : List UsageEntry) (range : TimeRange) : List UsageEntry :=
  match range with
  | .all => entries
  | _ =>
    let days : ℤ := match range with | .d7 => 7 | _ => 30
    let cutoff := now - days * 24 * 60 * 60 * 1000
    entries.filter (fun e => match parseDate e.timestamp with
      | some t => decide (cutoff ≤ t)
      | none => false)

/-! Aggregator (logParser.ts lines 230-452).  JS `Map` is modelled as an
insertion-ordered association list (`set` of an existing key updates in
place, a new key is appended); JS `Set` as an insertion-ordered list with
add-if-absent. -/

/-- Map lookup (`map.get(k)`). -/
def mapGet? {β : Type} (m : List (String × β)) (k : String) : Option β :=
  (m.find? (fun p => p.1 = k)).map Prod.snd

/-- Map write (`map.set(k, v)`): update in place, or append a new key. -/
def mapSet {β : Type} (m : List (String × β)) (k : String) (v : β) :
    List (String × β) :=
  match m with
  | [] => [(k, v)]
  | p :: rest => if p.1 = k then (k, v) :: rest else p :: mapSet rest k v

/-- The source's recurring pattern
`if (!map.has(k)) map.set(k, dflt); mutate(map.get(k)!)`. -/
def mapUpd {β : Type} (m : List (String × β)) (k : String) (dflt : β)
    (f : β → β) : List (String × β) :=
  mapSet m k (f ((mapGet? m k).getD dflt))

/-- Set insertion (`set.add(x)`): append if absent. -/
def setAdd (s : List String) (x : String) : List String :=
  if x ∈ s then s else s ++ [x]

/-- Per-model statistics (types/usage.ts `ModelUsage`). -/
structure ModelUsage where
  model : String
  totalCost : ℚ
  totalTokens : ℕ
  inputTokens : ℕ
  outputTokens : ℕ
  cacheCreationTokens : ℕ
  cacheReadTokens : ℕ
  sessionCount : ℕ
deriving DecidableEq, Repr

/-- Per-day statistics (types/usage.ts `DailyUsage`). -/
structure DailyUsage where
  date : String
  totalCost : ℚ
  totalTokens : ℕ
  modelsUsed : List String
deriving DecidableEq, Repr

/-- Per-project statistics (types/usage.ts `ProjectUsage`). -/
structure ProjectUsage where
  projectPath : String
  projectName : String
  totalCost : ℚ
  totalTokens : ℕ
  sessionCount : ℕ
  lastUsed : String
deriving DecidableEq, Repr

/-- Per-session statistics (types/usage.ts `SessionUsage`). -/
structure SessionUsage where
  sessionId : String
  projectPath : String
  projectName : String
  totalCost : ℚ
  totalTokens : ℕ
  inputTokens : ℕ
  outputTokens : ℕ
  cacheCreationTokens : ℕ
  cacheReadTokens : ℕ
  startTime : String
  endTime : String
  modelsUsed : List String
deriving DecidableEq, Repr

/-- Aggregated statistics (types/usage.ts `UsageStats`). -/
structure UsageStats where
  totalCost : ℚ
  totalTokens : ℕ
  totalInputTokens : ℕ
  totalOutputTokens : ℕ
  totalCacheCreationTokens : ℕ
  totalCacheReadTokens : ℕ
  totalSessions : ℕ
  byModel : List ModelUsage
  byDate : List DailyUsage
  byProject : List ProjectUsage
deriving DecidableEq, Repr

/-- Function `getProjectName` (logParser.ts lines 230-234): last nonempty
segment of the slash-separated path, else the path itself. -/
def getProjectName (projectPath : String) : String :=
  let parts := ((projectPath.data.splitOn '/').map String.mk).filter (fun s => s ≠ "")
  parts.getLast?.getD projectPath

/-- Day key of a timestamp: `entry.timestamp.split('T')[0]`. -/
def dayOf (timestamp : String) : String :=
  String.mk ((timestamp.data.splitOn 'T').headD [])

/-- Accumulator of the `dateMap` values. -/
structure DateAccum where
  cost : ℚ
  tokens : ℕ
  models : List String
deriving DecidableEq, Repr

/-- Accumulator of the `projectMap` values. -/
structure ProjAccum where
  cost : ℚ
  tokens : ℕ
  sessions : List String
  lastUsed : String
  projectName : String
deriving DecidableEq, Repr

/-- Accumulator of `aggregateStats`'s first loop (logParser.ts lines
255-335). -/
structure AggAccum where
  totalCost : ℚ
  totalInputTokens : ℕ
  totalOutputTokens : ℕ
  totalCacheCreationTokens : ℕ
  totalCacheReadTokens : ℕ
  sessions : List String
  modelMap : List (String × ModelUsage)
  dateMap : List (String × DateAccum)
  projectMap : List (String × ProjAccum)
deriving DecidableEq, Repr

/-- Initial accumulator. -/
def initAgg : AggAccum :=
  { totalCost := 0, totalInputTokens := 0, totalOutputTokens := 0,
    totalCacheCreationTokens := 0, totalCacheReadTokens := 0,
    sessions := [], modelMap := [], dateMap := [], projectMap := [] }

/-- Body of `aggregateStats`'s first loop for one entry. -/
def stepAgg (st : AggAccum) (entry : UsageEntry) : AggAccum :=
  let tokens := entry.inputTokens + entry.outputTokens +
    entry.cacheCreationTokens + entry.cacheReadTokens
  { totalCost := st.totalCost + entry.cost
    totalInputTokens := st.totalInputTokens + entry.inputTokens
    totalOutputTokens := st.totalOutputTokens + entry.outputTokens
    totalCacheCreationTokens := st.totalCacheCreationTokens + entry.cacheCreationTokens
    totalCacheReadTokens := st.totalCacheReadTokens + entry.cacheReadTokens
    sessions := setAdd st.sessions entry.sessionId
    modelMap := mapUpd st.modelMap entry.model
      { model := entry.model, totalCost := 0, totalTokens := 0, inputTokens := 0,
        outputTokens := 0, cacheCreationTokens := 0, cacheReadTokens := 0,
        sessionCount := 0 }
      (fun mu =>
        { mu with
          totalCost := mu.totalCost + entry.cost
          inputTokens := mu.inputTokens + entry.inputTokens
          outputTokens := mu.outputTokens + entry.outputTokens
          cacheCreationTokens := mu.cacheCreationTokens + entry.cacheCreationTokens
          cacheReadTokens := mu.cacheReadTokens + entry.cacheReadTokens
          totalTokens := mu.totalTokens + tokens })
    dateMap := mapUpd st.dateMap (dayOf entry.timestamp)
      { cost := 0, tokens := 0, models := [] }
      (fun d =>
        { cost := d.cost + entry.cost
          tokens := d.tokens + tokens
          models := setAdd d.models entry.model })
    projectMap := mapUpd st.projectMap entry.projectPath
      { cost := 0, tokens := 0, sessions := [], lastUsed := entry.timestamp,
        projectName := getProjectName entry.projectPath }
      (fun p =>
        { p with
          cost := p.cost + entry.cost
          tokens := p.tokens + tokens
          sessions := setAdd p.sessions entry.sessionId
          lastUsed := if p.lastUsed < entry.timestamp then entry.timestamp else p.lastUsed }) }

/-- Second pass of `aggregateStats` (logParser.ts lines 337-344): distinct
session ids per model. -/
def modelSessionsOf (entries : List UsageEntry) : List (String × List String) :=
  entries.foldl (fun m e => mapUpd m e.model [] (fun s => setAdd s e.sessionId)) []

/-- Patch of the session counts into the model map (logParser.ts lines
345-350). -/
def patchSessionCounts (modelMap : List (String × ModelUsage))
    (ms : List (String × List String)) : List (String × ModelUsage) :=
  ms.foldl (fun mm p =>
    match mapGet? mm p.1 with
    | some mu => mapSet mm p.1 { mu with sessionCount := p.2.length }
    | none => mm) modelMap

/-- Function `aggregateStats` (logParser.ts lines 239-388). -/
def aggregateStats (entries : List UsageEntry) : UsageStats :=
  if entries.isEmpty then
    { totalCost := 0, totalTokens := 0, totalInputTokens := 0,
      totalOutputTokens := 0, totalCacheCreationTokens := 0,
      totalCacheReadTokens := 0, totalSessions := 0,
      byModel := [], byDate := [], byProject := [] }
  else
    let st := entries.foldl stepAgg initAgg
    let modelMap := patchSessionCounts st.modelMap (modelSessionsOf entries)
    let byModel := (modelMap.map Prod.snd).mergeSort
      (fun a b => decide (b.totalCost ≤ a.totalCost))
    let byDate := (st.dateMap.map (fun p =>
        ({ date := p.1, totalCost := p.2.cost, totalTokens := p.2.tokens,
           modelsUsed := p.2.models } : DailyUsage))).mergeSort
      (fun a b => decide (a.date ≤ b.date))
    let byProject := (st.projectMap.map (fun p =>
        ({ projectPath := p.1, projectName := p.2.projectName,
           totalCost := p.2.cost, totalTokens := p.2.tokens,
           sessionCount := p.2.sessions.length,
           lastUsed := p.2.lastUsed } : ProjectUsage))).mergeSort
      (fun a b => decide (b.totalCost ≤ a.totalCost))
    { totalCost := st.totalCost
      totalTokens := st.totalInputTokens + st.totalOutputTokens +
        st.totalCacheCreationTokens + st.totalCacheReadTokens
      totalInputTokens := st.totalInputTokens
      totalOutputTokens := st.totalOutputTokens
      totalCacheCreationTokens := st.totalCacheCreationTokens
      totalCacheReadTokens := st.totalCacheReadTokens
      totalSessions := st.sessions.length
      byModel := byModel
      byDate := byDate
      byProject := byProject }

/-- Accumulator of `getSessionStats`'s inner loop. -/
structure SessAccum where
  models : List String
  totalCost : ℚ
  inputTokens : ℕ
  outputTokens : ℕ
  cacheCreationTokens : ℕ
  cacheReadTokens : ℕ
  startTime : String
  endTime : String
deriving DecidableEq, Repr

/-- Session grouping pass of `getSessionStats` (logParser.ts lines
394-407): buckets keyed by session id, keeping the first entry's project
path and appending entries in order. -/
def sessionMapOf (entries : List UsageEntry) :
    List (String × (String × List UsageEntry)) :=
  entries.foldl (fun m e =>
    mapUpd m e.sessionId (e.projectPath, []) (fun pr => (pr.1, pr.2 ++ [e]))) []

/-- Function `getSessionStats` (logParser.ts lines 393-452).  Every bucket
contains at least the entry that created it, so the empty-bucket branch is
unreachable. -/
def getSessionStats (entries : List UsageEntry) : List SessionUsage :=
  ((sessionMapOf entries).filterMap (fun p =>
    match p.2.2 with
    | [] => none
    | e0 :: _ =>
      let acc := p.2.2.foldl (fun (acc : SessAccum) e =>
        { models := setAdd acc.models e.model
          totalCost := acc.totalCost + e.cost
          inputTokens := acc.inputTokens + e.inputTokens
          outputTokens := acc.outputTokens + e.outputTokens
          cacheCreationTokens := acc.cacheCreationTokens + e.cacheCreationTokens
          cacheReadTokens := acc.cacheReadTokens + e.cacheReadTokens
          startTime := if e.timestamp < acc.startTime then e.timestamp else acc.startTime
          endTime := if acc.endTime < e.timestamp then e.timestamp else acc.endTime })
        { models := [], totalCost := 0, inputTokens := 0, outputTokens := 0,
          cacheCreationTokens := 0, cacheReadTokens := 0,
          startTime := e0.timestamp, endTime := e0.timestamp }
      some {
        sessionId := p.1
        projectPath := p.2.1
        projectName := getProjectName p.2.1
        totalCost := acc.totalCost
        totalTokens := acc.inputTokens + acc.outputTokens +
          acc.cacheCreationTokens + acc.cacheReadTokens
        inputTokens := acc.inputTokens
        outputTokens := acc.outputTokens
        cacheCreationTokens := acc.cacheCreationTokens
        cacheReadTokens := acc.cacheReadTokens
        startTime := acc.startTime
        endTime := acc.endTime
        modelsUsed := acc.models })).mergeSort
    (fun a b => decide (b.startTime ≤ a.startTime))

/-- Whether a raw record carries a nested usage block
(`entry.message?.usage`). -/
def recHasUsage (e : JsonlEntry) : Bool :=
  match e.message with
  | some m => m.usage.isSome
  | none => false

/-- The four token counts of a record with usage block, each defaulting to
0 when absent (logParser.ts lines 121-124). -/
def recTokens (e : JsonlEntry) : ℕ × ℕ × ℕ × ℕ :=
  match e.message with
  | some m =>
    match m.usage with
    | some u => (u.input_tokens.getD 0, u.output_tokens.getD 0,
        u.cache_creation_input_tokens.getD 0, u.cache_read_input_tokens.getD 0)
    | none => (0, 0, 0, 0)
  | none => (0, 0, 0, 0)

/-- Count of the records in a list that carry dedup key `k` and produce a
`UsageEntry`, threading the parser state through `stepLine`. -/
def producedCount (sid enc k : String) : ParseState → List JsonlEntry → ℕ
  | _, [] => 0
  | st, e :: rest =>
    (if dedupKey e = some k ∧ (stepLine sid enc st e).2.isSome then 1 else 0) +
      producedCount sid enc k (stepLine sid enc st e).1 rest

/-- Sample record with all-zero usage carrying dedup ids m1/r1. -/
def zeroRec : JsonlEntry :=
  ⟨"2025-01-01T00:00:00Z",
   some ⟨some "m1", some "claude-sonnet-4-5", some ⟨some 0, some 0, some 0, some 0⟩⟩,
   none, some "r1", none, none⟩

/-- Sample nonzero-usage record with the same dedup ids as `zeroRec`. -/
def dupRec : JsonlEntry :=
  ⟨"2025-01-01T00:00:01Z",
   some ⟨some "m1", some "claude-sonnet-4-5", some ⟨some 5, some 0, some 0, some 0⟩⟩,
   none, some "r1", some 1, none⟩

/-- Sample nonzero-usage record lacking a request id. -/
def noIdRec : JsonlEntry :=
  ⟨"2025-01-01T00:00:02Z",
   some ⟨some "m2", some "claude-sonnet-4-5", some ⟨some 7, some 0, some 0, some 0⟩⟩,
   none, none, some 1, none⟩

/-- The entry produced from `noIdRec` with fallbacks "s" and "p". -/
def sampleEntry : UsageEntry :=
  ⟨"2025-01-01T00:00:02Z", "claude-sonnet-4-5", 7, 0, 0, 0, 1, "s", "p"⟩

/-- The display label the spec pairs with each pricing tier key (the string
literals of `getModelDisplayName`); this is the spec-side association used
to compare the two resolvers. -/
def displayLabel (tier : String) : String :=
  if tier = "opus-4.5" then "Claude Opus 4.5"
  else if tier = "opus-4.1" then "Claude Opus 4.1"
  else if tier = "opus-4" then "Claude Opus 4"
  else if tier = "opus-3" then "Claude Opus 3"
  else if tier = "sonnet-4.5" then "Claude Sonnet 4.5"
  else if tier = "sonnet-4" then "Claude Sonnet 4"
  else if tier = "sonnet-3.7" then "Claude Sonnet 3.7"
  else if tier = "sonnet-3.5" then "Claude Sonnet 3.5"
  else if tier = "haiku-4.5" then "Claude Haiku 4.5"
  else if tier = "haiku-3.5" then "Claude Haiku 3.5"
  else "Claude Haiku 3"

/-! Theorems. -/

lemma calculateCost_of_pricing (model : String) (i o cc cr : ℕ) (p : ModelPricing)
    (hp : getModelPricing model = some p) :
    calculateCost model i o cc cr =
      (i * p.input) / 1000000 + (o * p.output) / 1000000 +
      (cc * p.cacheWrite) / 1000000 + (cr * p.cacheRead) / 1000000 := by
  unfold calculateCost
  rw [hp]

lemma calculateCost_of_no_pricing (model : String) (i o cc cr : ℕ)
    (hp : getModelPricing model = none) :
    calculateCost model i o cc cr = 0 := by
  unfold calculateCost
  rw [hp]

/-- C1: for every model name that resolves to a pricing tier, the computed
cost is the token-weighted sum of the tier's four per-million rates divided
by 1,000,000; for a model resolving to no tier the cost is 0. -/
theorem calculateCost_matches_tier_rates (model : String) (i o cc cr : ℕ) :
    (∀ p, getModelPricing model = some p →
      calculateCost model i o cc cr =
        (i * p.input + o * p.output + cc * p.cacheWrite + cr * p.cacheRead) / 1000000) ∧
    (getModelPricing model = none → calculateCost model i o cc cr = 0) := by
  refine ⟨fun p hp => ?_, fun hp => calculateCost_of_no_pricing model i o cc cr hp⟩
  rw [calculateCost_of_pricing model i o cc cr p hp]
  ring

/-- Closed witness for C1 at a concrete resolvable and a concrete
unresolvable model. -/
theorem calculateCost_matches_tier_rates_witness :
    calculateCost "claude-sonnet-4-5" 1000 500 0 0 =
      (1000 * (priceOf "sonnet-4.5").input + 500 * (priceOf "sonnet-4.5").output +
        0 * (priceOf "sonnet-4.5").cacheWrite + 0 * (priceOf "sonnet-4.5").cacheRead) / 1000000 ∧
    calculateCost "gpt-4" 1000 500 0 0 = 0 := by
  constructor
  · have ht : getModelTierName "claude-sonnet-4-5" = some "sonnet-4.5" := by decide
    have hp : getModelPricing "claude-sonnet-4-5" = some (priceOf "sonnet-4.5") := by
      unfold getModelPricing; rw [ht]; rfl
    exact (calculateCost_matches_tier_rates "claude-sonnet-4-5" 1000 500 0 0).1
      (priceOf "sonnet-4.5") hp
  · have ht : getModelTierName "gpt-4" = none := by decide
    have hp : getModelPricing "gpt-4" = none := by
      unfold getModelPricing; rw [ht]; rfl
    exact (calculateCost_matches_tier_rates "gpt-4" 1000 500 0 0).2 hp

/-- C8: the model string "claude-opus-4-1-20250301" resolves to tier
"opus-4.1" (input 15, output 75 per million tokens), not to "opus-4" or
"opus-4.5", and its display name is "Claude Opus 4.1". -/
theorem opus41_resolution :
    getModelTierName "claude-opus-4-1-20250301" = some "opus-4.1" ∧
    getModelTierName "claude-opus-4-1-20250301" ≠ some "opus-4" ∧
    getModelTierName "claude-opus-4-1-20250301" ≠ some "opus-4.5" ∧
    getModelPricing "claude-opus-4-1-20250301" = some (priceOf "opus-4.1") ∧
    (priceOf "opus-4.1").input = 15 ∧ (priceOf "opus-4.1").output = 75 ∧
    getModelDisplayName "claude-opus-4-1-20250301" = "Claude Opus 4.1" := by
  have ht : getModelTierName "claude-opus-4-1-20250301" = some "opus-4.1" := by decide
  have hval : priceOf "opus-4.1" = ⟨15.0, 75.0, 18.75, 1.50⟩ := rfl
  refine ⟨ht, by decide, by decide, by unfold getModelPricing; rw [ht]; rfl, ?_, ?_, by decide⟩
  · rw [hval]; norm_num
  · rw [hval]; norm_num

/-- C9: aggregation of the empty entry list yields a zero-valued stats
object with empty collections, and a nonexistent log root yields the empty
entry list. -/
theorem empty_inputs_yield_empty_outputs :
    aggregateStats [] =
      { totalCost := 0, totalTokens := 0, totalInputTokens := 0,
        totalOutputTokens := 0, totalCacheCreationTokens := 0,
        totalCacheReadTokens := 0, totalSessions := 0,
        byModel := [], byDate := [], byProject := [] } ∧
    getAllUsageEntries none = [] :=
  ⟨rfl, rfl⟩

lemma foldl_stepAgg_totalCost (l : List UsageEntry) (a : AggAccum) :
    (l.foldl stepAgg a).totalCost = a.totalCost + (l.map (fun e => e.cost)).sum := by
  induction l generalizing a with
  | nil => simp
  | cons e t ih =>
    simp only [List.foldl_cons, List.map_cons, List.sum_cons, ih, stepAgg]
    ring

lemma foldl_stepAgg_input (l : List UsageEntry) (a : AggAccum) :
    (l.foldl stepAgg a).totalInputTokens =
      a.totalInputTokens + (l.map (fun e => e.inputTokens)).sum := by
  induction l generalizing a with
  | nil => simp
  | cons e t ih =>
    simp only [List.foldl_cons, List.map_cons, List.sum_cons, ih, stepAgg]
    omega

lemma foldl_stepAgg_output (l : List UsageEntry) (a : AggAccum) :
    (l.foldl stepAgg a).totalOutputTokens =
      a.totalOutputTokens + (l.map (fun e => e.outputTokens)).sum := by
  induction l generalizing a with
  | nil => simp
  | cons e t ih =>
    simp only [List.foldl_cons, List.map_cons, List.sum_cons, ih, stepAgg]
    omega

lemma foldl_stepAgg_cacheCreation (l : List UsageEntry) (a : AggAccum) :
    (l.foldl stepAgg a).totalCacheCreationTokens =
      a.totalCacheCreationTokens + (l.map (fun e => e.cacheCreationTokens)).sum := by
  induction l generalizing a with
  | nil => simp
  | cons e t ih =>
    simp only [List.foldl_cons, List.map_cons, List.sum_cons, ih, stepAgg]
    omega

lemma foldl_stepAgg_cacheRead (l : List UsageEntry) (a : AggAccum) :
    (l.foldl stepAgg a).totalCacheReadTokens =
      a.totalCacheReadTokens + (l.map (fun e => e.cacheReadTokens)).sum := by
  induction l generalizing a with
  | nil => simp
  | cons e t ih =>
    simp only [List.foldl_cons, List.map_cons, List.sum_cons, ih, stepAgg]
    omega

lemma sum_four_fields (l : List UsageEntry) :
    (l.map (fun e => e.inputTokens + e.outputTokens +
        e.cacheCreationTokens + e.cacheReadTokens)).sum =
      (l.map (fun e => e.inputTokens)).sum + (l.map (fun e => e.outputTokens)).sum +
      (l.map (fun e => e.cacheCreationTokens)).sum +
      (l.map (fun e => e.cacheReadTokens)).sum := by
  induction l with
  | nil => simp
  | cons e t ih => simp only [List.map_cons, List.sum_cons, ih]; omega

/-- C3: the aggregated `totalCost` is the sum of the entries' costs, and the
aggregated `totalTokens` is the sum of the entries' four token fields. -/
theorem aggregateStats_totals (entries : List UsageEntry) :
    (aggregateStats entries).totalCost = (entries.map (fun e => e.cost)).sum ∧
    (aggregateStats entries).totalTokens =
      (entries.map (fun e => e.inputTokens + e.outputTokens +
        e.cacheCreationTokens + e.cacheReadTokens)).sum := by
  by_cases h : entries.isEmpty = true
  · rw [List.isEmpty_iff] at h
    subst h
    exact ⟨rfl, rfl⟩
  · unfold aggregateStats
    rw [if_neg h]
    refine ⟨?_, ?_⟩
    · simpa [initAgg] using foldl_stepAgg_totalCost entries initAgg
    · have h1 := foldl_stepAgg_input entries initAgg
      have h2 := foldl_stepAgg_output entries initAgg
      have h3 := foldl_stepAgg_cacheCreation entries initAgg
      have h4 := foldl_stepAgg_cacheRead entries initAgg
      simp only [initAgg] at h1 h2 h3 h4
      simp only [sum_four_fields]
      simp [h1, h2, h3, h4, initAgg]

lemma stepLine_none_of_zero (sid enc : String) (st : ParseState) (e : JsonlEntry)
    (hz : recTokens e = (0, 0, 0, 0)) :
    (stepLine sid enc st e).2 = none := by
  unfold stepLine
  rcases hm : e.message with _ | m
  · simp
  · rcases hu : m.usage with _ | u
    · simp [hu]
    · simp only [recTokens, hm, hu, Prod.mk.injEq] at hz
      obtain ⟨h1, h2, h3, h4⟩ := hz
      cases hid : truthyStr m.id <;> cases hrid : truthyStr e.requestId <;>
        simp [hu, hid, hrid, mkUsageEntry, h1, h2, h3, h4]
      all_goals try (split <;> rfl)

lemma stepLine_some_nonzero (sid enc : String) (st : ParseState) (e : JsonlEntry)
    (u : UsageEntry) (h : (stepLine sid enc st e).2 = some u) :
    ¬(u.inputTokens = 0 ∧ u.outputTokens = 0 ∧
      u.cacheCreationTokens = 0 ∧ u.cacheReadTokens = 0) := by
  unfold stepLine at h
  rcases hm : e.message with _ | m
  · simp [hm] at h
  · simp only [hm] at h
    rcases hu : m.usage with _ | us
    · simp [hu] at h
    · cases hid : truthyStr m.id <;> cases hrid : truthyStr e.requestId <;>
        simp only [hu, hid, hrid] at h
      case none.none | none.some | some.none =>
        all_goals (
          simp only [mkUsageEntry] at h
          split at h
          · simp at h
          · rename_i hnz
            simp only [Option.some.injEq] at h
            subst h
            exact hnz)
      case some.some =>
        split at h
        · simp at h
        · simp only [mkUsageEntry] at h
          split at h
          · simp at h
          · rename_i hnz
            simp only [Option.some.injEq] at h
            subst h
            exact hnz

lemma processLines_all_nonzero (sid enc : String) (st : ParseState)
    (l : List JsonlEntry) :
    ∀ u ∈ (processLines sid enc st l).2,
      ¬(u.inputTokens = 0 ∧ u.outputTokens = 0 ∧
        u.cacheCreationTokens = 0 ∧ u.cacheReadTokens = 0) := by
  induction l generalizing st with
  | nil => intro u hu; simp [processLines] at hu
  | cons e t ih =>
    intro u hu
    simp only [processLines] at hu
    rcases hp : (stepLine sid enc st e).2 with _ | v <;> rw [hp] at hu
    · exact ih _ u hu
    · rcases List.mem_cons.mp hu with rfl | hu2
      · exact stepLine_some_nonzero sid enc st e u hp
      · exact ih _ u hu2

/-- C4: a record whose four token counts (defaulting to 0) are all zero
produces no `UsageEntry`, and no `UsageEntry` with four zero token counts
is ever produced by the line loop. -/
theorem zero_usage_suppressed :
    (∀ sid enc st e, recTokens e = (0, 0, 0, 0) →
      (stepLine sid enc st e).2 = none) ∧
    (∀ sid enc st l, ∀ u ∈ (processLines sid enc st l).2,
      ¬(u.inputTokens = 0 ∧ u.outputTokens = 0 ∧
        u.cacheCreationTokens = 0 ∧ u.cacheReadTokens = 0)) :=
  ⟨stepLine_none_of_zero, processLines_all_nonzero⟩

lemma stepLine_hashes_mono (sid enc : String) (st : ParseState) (e : JsonlEntry)
    (a : String) (ha : a ∈ st.processedHashes) :
    a ∈ (stepLine sid enc st e).1.processedHashes := by
  unfold stepLine
  rcases hm : e.message with _ | m
  · simpa using ha
  · rcases hu : m.usage with _ | u
    · simpa [hu] using ha
    · cases hid : truthyStr m.id <;> cases hrid : truthyStr e.requestId <;>
        simp only [hu, hid, hrid, mkUsageEntry]
      case none.none | none.some | some.none =>
        all_goals (split <;> simpa using ha)
      case some.some =>
        split
        · simpa using ha
        · split <;> simp [List.mem_cons, ha]

lemma processLines_hashes_mono (sid enc : String) (st : ParseState)
    (l : List JsonlEntry) (a : String) (ha : a ∈ st.processedHashes) :
    a ∈ (processLines sid enc st l).1.processedHashes := by
  induction l generalizing st with
  | nil => exact ha
  | cons e t ih =>
    simp only [processLines]
    exact ih _ (stepLine_hashes_mono sid enc st e a ha)

lemma contains_true_iff_mem {l : List String} {a : String} :
    l.contains a = true ↔ a ∈ l :=
  List.elem_iff

lemma stepLine_skip_of_mem (sid enc : String) (st : ParseState) (e : JsonlEntry)
    (k : String) (hk : dedupKey e = some k) (hm : k ∈ st.processedHashes) :
    (stepLine sid enc st e).2 = none := by
  unfold dedupKey at hk
  unfold stepLine
  rcases hmsg : e.message with _ | m
  · simp [hmsg] at hk
  · simp only [hmsg] at hk
    rcases hu : m.usage with _ | u
    · simp [hu]
    · cases hid : truthyStr m.id <;> cases hrid : truthyStr e.requestId
      case none.none | none.some | some.none =>
        all_goals simp [hid, hrid] at hk
      case some.some =>
        rename_i mid rid
        simp only [hid, hrid, Option.some.injEq] at hk
        subst hk
        simp only [hu, hid, hrid]
        rw [if_pos (contains_true_iff_mem.mpr hm)]

lemma stepLine_key_mem_after (sid enc : String) (st : ParseState)
    (e : JsonlEntry) (k : String) (hk : dedupKey e = some k)
    (hu : recHasUsage e = true) :
    k ∈ (stepLine sid enc st e).1.processedHashes := by
  unfold dedupKey at hk
  unfold recHasUsage at hu
  unfold stepLine
  rcases hmsg : e.message with _ | m
  · simp [hmsg] at hk
  · simp only [hmsg] at hk hu
    rcases husage : m.usage with _ | u
    · simp [husage] at hu
    · cases hid : truthyStr m.id <;> cases hrid : truthyStr e.requestId
      case none.none | none.some | some.none =>
        all_goals simp [hid, hrid] at hk
      case some.some =>
        rename_i mid rid
        simp only [hid, hrid, Option.some.injEq] at hk
        subst hk
        simp only [husage, hid, hrid]
        split
        · rename_i hc
          simpa using contains_true_iff_mem.mp hc
        · simp only [mkUsageEntry]
          split <;> simp

lemma stepLine_key_mem_of_some (sid enc : String) (st : ParseState)
    (e : JsonlEntry) (k : String) (hk : dedupKey e = some k)
    (hs : (stepLine sid enc st e).2.isSome = true) :
    k ∈ (stepLine sid enc st e).1.processedHashes := by
  apply stepLine_key_mem_after sid enc st e k hk
  unfold recHasUsage
  unfold stepLine at hs
  rcases hmsg : e.message with _ | m <;> simp only [hmsg] at hs ⊢
  · simp at hs
  · rcases husage : m.usage with _ | u <;> simp only [husage] at hs ⊢
    · simp at hs
    · rfl

lemma producedCount_zero_of_mem (sid enc k : String) (st : ParseState)
    (l : List JsonlEntry) (hm : k ∈ st.processedHashes) :
    producedCount sid enc k st l = 0 := by
  induction l generalizing st with
  | nil => rfl
  | cons e t ih =>
    simp only [producedCount]
    rw [ih _ (stepLine_hashes_mono sid enc st e k hm)]
    by_cases hk : dedupKey e = some k
    · rw [stepLine_skip_of_mem sid enc st e k hk hm]
      simp
    · simp [hk]

lemma producedCount_le_one (sid enc k : String) (st : ParseState)
    (l : List JsonlEntry) : producedCount sid enc k st l ≤ 1 := by
  induction l generalizing st with
  | nil => exact Nat.zero_le 1
  | cons e t ih =>
    simp only [producedCount]
    by_cases h : dedupKey e = some k ∧ (stepLine sid enc st e).2.isSome = true
    · rw [producedCount_zero_of_mem sid enc k _ t
        (stepLine_key_mem_of_some sid enc st e k h.1 h.2)]
      simp [h]
    · have : (if dedupKey e = some k ∧ (stepLine sid enc st e).2.isSome = true
          then 1 else 0) = 0 := by simp [h]
      rw [this]
      simpa using ih (stepLine sid enc st e).1

lemma stepLine_isSome_of_no_key (sid enc : String) (st : ParseState)
    (e : JsonlEntry) (hk : dedupKey e = none) :
    (stepLine sid enc st e).2.isSome =
      (recHasUsage e && !decide (recTokens e = (0, 0, 0, 0))) := by
  unfold dedupKey at hk
  unfold stepLine recHasUsage recTokens
  rcases hmsg : e.message with _ | m
  · simp
  · simp only [hmsg] at hk
    rcases hu : m.usage with _ | u
    · simp [hu]
    · cases hid : truthyStr m.id <;> cases hrid : truthyStr e.requestId
      case some.some => simp [hid, hrid] at hk
      all_goals (
        simp only [hu, hid, hrid, mkUsageEntry]
        split
        · rename_i hzero
          simp [hu, hzero, Prod.mk.injEq]
        · rename_i hzero
          simp [hu, hzero, Prod.mk.injEq])

/-- C2 (amended): with one shared dedup set, the records carrying any given
dedup key produce at most one `UsageEntry` between them over a whole record
list, and a record lacking either id is never deduplicated — whether it
produces an entry depends only on its own usage block, never on the dedup
set. -/
theorem dedup_at_most_one_per_key :
    (∀ sid enc k st l, producedCount sid enc k st l ≤ 1) ∧
    (∀ sid enc st e, dedupKey e = none →
      (stepLine sid enc st e).2.isSome =
        (recHasUsage e && !decide (recTokens e = (0, 0, 0, 0)))) :=
  ⟨fun sid enc k st l => producedCount_le_one sid enc k st l,
   fun sid enc st e hk => stepLine_isSome_of_no_key sid enc st e hk⟩

/-- Counterexample to C2 as stated: two records share dedup key "m1:r1",
yet processing them yields zero `UsageEntry`s, not exactly one — the
zero-usage first record claims the key without producing an entry. -/
theorem duplicate_pair_can_yield_zero_entries :
    dedupKey zeroRec = some "m1:r1" ∧ dedupKey dupRec = some "m1:r1" ∧
    (processLines "s" "p" ⟨none, []⟩ [zeroRec, dupRec]).2.length = 0 :=
  ⟨by decide, by decide, by decide⟩

/-- Closed witness for the amended C2 at concrete records. -/
theorem dedup_at_most_one_per_key_witness :
    producedCount "s" "p" "m1:r1" ⟨none, []⟩ [zeroRec, dupRec] ≤ 1 ∧
    (stepLine "s" "p" ⟨none, []⟩ noIdRec).2.isSome =
      (recHasUsage noIdRec && !decide (recTokens noIdRec = (0, 0, 0, 0))) :=
  ⟨dedup_at_most_one_per_key.1 "s" "p" "m1:r1" ⟨none, []⟩ [zeroRec, dupRec],
   dedup_at_most_one_per_key.2 "s" "p" ⟨none, []⟩ noIdRec (by decide)⟩

/-- C10: a record carrying both ids but all-zero token counts yields no
entry itself, yet inserts its dedup key into the shared set; the key then
persists through any further processing, and any record carrying the same
key is discarded whenever the key is in the set. -/
theorem zero_usage_record_still_claims_dedup_key
    (sid enc : String) (st : ParseState) (r1 r2 : JsonlEntry) (k : String)
    (hk1 : dedupKey r1 = some k) (hu1 : recHasUsage r1 = true)
    (hz1 : recTokens r1 = (0, 0, 0, 0)) (hk2 : dedupKey r2 = some k) :
    (stepLine sid enc st r1).2 = none ∧
    k ∈ (stepLine sid enc st r1).1.processedHashes ∧
    (∀ sid2 enc2 st2 l, k ∈ st2.processedHashes →
      k ∈ (processLines sid2 enc2 st2 l).1.processedHashes) ∧
    (∀ sid2 enc2 st2, k ∈ st2.processedHashes →
      (stepLine sid2 enc2 st2 r2).2 = none) :=
  ⟨stepLine_none_of_zero sid enc st r1 hz1,
   stepLine_key_mem_after sid enc st r1 k hk1 hu1,
   fun sid2 enc2 st2 l hm => processLines_hashes_mono sid2 enc2 st2 l k hm,
   fun sid2 enc2 st2 hm => stepLine_skip_of_mem sid2 enc2 st2 r2 k hk2 hm⟩

/-- Closed witness for C10 at concrete records. -/
theorem zero_usage_record_still_claims_dedup_key_witness :
    (stepLine "s" "p" ⟨none, []⟩ zeroRec).2 = none ∧
    "m1:r1" ∈ (stepLine "s" "p" ⟨none, []⟩ zeroRec).1.processedHashes ∧
    (stepLine "s2" "p2" ⟨none, ["m1:r1"]⟩ dupRec).2 = none := by
  have h := zero_usage_record_still_claims_dedup_key "s" "p" ⟨none, []⟩
    zeroRec dupRec "m1:r1" (by decide) (by decide) (by decide) (by decide)
  exact ⟨h.1, h.2.1, h.2.2.2 "s2" "p2" ⟨none, ["m1:r1"]⟩ (by simp)⟩

/-- Closed witness for C4 at concrete records. -/
theorem zero_usage_suppressed_witness :
    (stepLine "s" "p" ⟨none, []⟩ zeroRec).2 = none ∧
    ¬(sampleEntry.inputTokens = 0 ∧ sampleEntry.outputTokens = 0 ∧
      sampleEntry.cacheCreationTokens = 0 ∧ sampleEntry.cacheReadTokens = 0) := by
  constructor
  · exact zero_usage_suppressed.1 "s" "p" ⟨none, []⟩ zeroRec (by decide)
  · refine zero_usage_suppressed.2 "s" "p" ⟨none, []⟩ [noIdRec] sampleEntry ?_
    rw [show (processLines "s" "p" ⟨none, []⟩ [noIdRec]).2 = [sampleEntry] from rfl]
    exact List.mem_singleton.mpr rfl

/-- C6: for any fixed current time and date parser, the all-time filter is
the identity, the 7-day result is contained in the 30-day result, which is
contained in the input, and an entry whose timestamp does not parse appears
in neither windowed result. -/
theorem filterByTimeRange_spec (parseDate : String → Option ℤ) (now : ℤ)
    (entries : List UsageEntry) :
    filterByTimeRange parseDate now entries .all = entries ∧
    (∀ e, e ∈ filterByTimeRange parseDate now entries .d7 →
      e ∈ filterByTimeRange parseDate now entries .d30) ∧
    (∀ e, e ∈ filterByTimeRange parseDate now entries .d30 →
      e ∈ filterByTimeRange parseDate now entries .all) ∧
    (∀ e, parseDate e.timestamp = none →
      e ∉ filterByTimeRange parseDate now entries .d7 ∧
      e ∉ filterByTimeRange parseDate now entries .d30) := by
  refine ⟨rfl, ?_, ?_, ?_⟩
  · intro e he
    simp only [filterByTimeRange, List.mem_filter] at he ⊢
    obtain ⟨hmem, hp⟩ := he
    refine ⟨hmem, ?_⟩
    generalize parseDate e.timestamp = x at hp ⊢
    cases x with
    | none => simp at hp
    | some t =>
      simp only [decide_eq_true_eq] at hp ⊢
      omega
  · intro e he
    simp only [filterByTimeRange, List.mem_filter] at he
    exact he.1
  · intro e hnone
    constructor <;>
    · intro hmem
      simp only [filterByTimeRange, List.mem_filter, hnone] at hmem
      exact absurd hmem.2 (by simp)

/-- Closed witness for C6 at a concrete parser, time and entry list. -/
theorem filterByTimeRange_spec_witness :
    sampleEntry ∉ filterByTimeRange (fun _ => none) 0 [sampleEntry] .d7 ∧
    sampleEntry ∉ filterByTimeRange (fun _ => none) 0 [sampleEntry] .d30 :=
  (filterByTimeRange_spec (fun _ => none) 0 [sampleEntry]).2.2.2 sampleEntry rfl

lemma pairwise_mergeSort_key_le {α β : Type} [LinearOrder β] (key : α → β)
    (l : List α) :
    (l.mergeSort (fun a b => decide (key a ≤ key b))).Pairwise
      (fun a b => key a ≤ key b) := by
  have h : (l.mergeSort (fun a b => decide (key a ≤ key b))).Pairwise
      (fun a b => decide (key a ≤ key b) = true) :=
    List.sorted_mergeSort
      (fun a b c h1 h2 => by
        simp only [decide_eq_true_eq] at h1 h2 ⊢
        exact le_trans h1 h2)
      (fun a b => by
        simp only [Bool.or_eq_true, decide_eq_true_eq]
        exact le_total (key a) (key b)) l
  exact h.imp (fun hab => by simpa using hab)

lemma pairwise_mergeSort_key_ge {α β : Type} [LinearOrder β] (key : α → β)
    (l : List α) :
    (l.mergeSort (fun a b => decide (key b ≤ key a))).Pairwise
      (fun a b => key b ≤ key a) := by
  have h : (l.mergeSort (fun a b => decide (key b ≤ key a))).Pairwise
      (fun a b => decide (key b ≤ key a) = true) :=
    List.sorted_mergeSort
      (fun a b c h1 h2 => by
        simp only [decide_eq_true_eq] at h1 h2 ⊢
        exact le_trans h2 h1)
      (fun a b => by
        simp only [Bool.or_eq_true, decide_eq_true_eq]
        exact le_total (key b) (key a)) l
  exact h.imp (fun hab => by simpa using hab)

lemma mem_mapSet_fst {β : Type} (m : List (String × β)) (k k1 : String) (v : β) :
    k1 ∈ (mapSet m k v).map Prod.fst ↔ k1 ∈ m.map Prod.fst ∨ k1 = k := by
  induction m with
  | nil => simp [mapSet]
  | cons p rest ih =>
    by_cases hp : p.1 = k
    · simp [mapSet, hp]
      tauto
    · simp [mapSet, hp, ih]
      tauto

lemma nodup_mapSet_fst {β : Type} (m : List (String × β)) (k : String) (v : β)
    (h : (m.map Prod.fst).Nodup) : ((mapSet m k v).map Prod.fst).Nodup := by
  induction m with
  | nil => simp [mapSet]
  | cons p rest ih =>
    simp only [List.map_cons, List.nodup_cons] at h
    by_cases hp : p.1 = k
    · rw [show mapSet (p :: rest) k v = (k, v) :: rest by simp [mapSet, hp]]
      simp only [List.map_cons, List.nodup_cons]
      exact ⟨hp ▸ h.1, h.2⟩
    · rw [show mapSet (p :: rest) k v = p :: mapSet rest k v by simp [mapSet, hp]]
      simp only [List.map_cons, List.nodup_cons]
      refine ⟨?_, ih h.2⟩
      rw [mem_mapSet_fst]
      push_neg
      exact ⟨h.1, hp⟩

lemma nodup_mapUpd_fst {β : Type} (m : List (String × β)) (k : String)
    (dflt : β) (f : β → β) (h : (m.map Prod.fst).Nodup) :
    ((mapUpd m k dflt f).map Prod.fst).Nodup :=
  nodup_mapSet_fst m k _ h

lemma foldl_stepAgg_dateMap_nodup (l : List UsageEntry) (a : AggAccum)
    (h : (a.dateMap.map Prod.fst).Nodup) :
    (((l.foldl stepAgg a).dateMap).map Prod.fst).Nodup := by
  induction l generalizing a with
  | nil => exact h
  | cons e t ih =>
    simp only [List.foldl_cons]
    apply ih
    simp only [stepAgg]
    exact nodup_mapUpd_fst _ _ _ _ h

lemma aggregateStats_byModel_eq (entries : List UsageEntry)
    (h : ¬entries.isEmpty = true) :
    (aggregateStats entries).byModel =
      ((patchSessionCounts (entries.foldl stepAgg initAgg).modelMap
          (modelSessionsOf entries)).map Prod.snd).mergeSort
        (fun a b => decide (b.totalCost ≤ a.totalCost)) := by
  unfold aggregateStats
  rw [if_neg h]

lemma aggregateStats_byDate_eq (entries : List UsageEntry)
    (h : ¬entries.isEmpty = true) :
    (aggregateStats entries).byDate =
      (((entries.foldl stepAgg initAgg).dateMap).map (fun p =>
          ({ date := p.1, totalCost := p.2.cost, totalTokens := p.2.tokens,
             modelsUsed := p.2.models } : DailyUsage))).mergeSort
        (fun a b => decide (a.date ≤ b.date)) := by
  unfold aggregateStats
  rw [if_neg h]

lemma aggregateStats_byProject_eq (entries : List UsageEntry)
    (h : ¬entries.isEmpty = true) :
    (aggregateStats entries).byProject =
      (((entries.foldl stepAgg initAgg).projectMap).map (fun p =>
          ({ projectPath := p.1, projectName := p.2.projectName,
             totalCost := p.2.cost, totalTokens := p.2.tokens,
             sessionCount := p.2.sessions.length,
             lastUsed := p.2.lastUsed } : ProjectUsage))).mergeSort
        (fun a b => decide (b.totalCost ≤ a.totalCost)) := by
  unfold aggregateStats
  rw [if_neg h]

/-- C7: `byModel` and `byProject` are non-increasing in total cost, `byDate`
is strictly increasing in its date string, and the session list is
non-increasing (most recent first) in start time. -/
theorem outputs_sorted (entries : List UsageEntry) :
    ((aggregateStats entries).byModel.Pairwise
      (fun a b => b.totalCost ≤ a.totalCost)) ∧
    ((aggregateStats entries).byProject.Pairwise
      (fun a b => b.totalCost ≤ a.totalCost)) ∧
    ((aggregateStats entries).byDate.Pairwise (fun a b => a.date < b.date)) ∧
    ((getSessionStats entries).Pairwise
      (fun a b => b.startTime ≤ a.startTime)) := by
  have hsess : (getSessionStats entries).Pairwise
      (fun a b => b.startTime ≤ a.startTime) := by
    unfold getSessionStats
    exact pairwise_mergeSort_key_ge (fun s : SessionUsage => s.startTime) _
  by_cases h : entries.isEmpty = true
  · rw [List.isEmpty_iff] at h
    subst h
    exact ⟨List.Pairwise.nil, List.Pairwise.nil, List.Pairwise.nil, hsess⟩
  · refine ⟨?_, ?_, ?_, hsess⟩
    · rw [aggregateStats_byModel_eq entries h]
      exact pairwise_mergeSort_key_ge (fun m : ModelUsage => m.totalCost) _
    · rw [aggregateStats_byProject_eq entries h]
      exact pairwise_mergeSort_key_ge (fun p : ProjectUsage => p.totalCost) _
    · rw [aggregateStats_byDate_eq entries h]
      have hle := pairwise_mergeSort_key_le (fun d : DailyUsage => d.date)
        (((entries.foldl stepAgg initAgg).dateMap).map (fun p =>
          ({ date := p.1, totalCost := p.2.cost, totalTokens := p.2.tokens,
             modelsUsed := p.2.models } : DailyUsage)))
      have hnodupKeys := foldl_stepAgg_dateMap_nodup entries initAgg (by simp [initAgg])
      have hmapdate : ((((entries.foldl stepAgg initAgg).dateMap).map (fun p =>
          ({ date := p.1, totalCost := p.2.cost, totalTokens := p.2.tokens,
             modelsUsed := p.2.models } : DailyUsage))).map (fun d => d.date)) =
          ((entries.foldl stepAgg initAgg).dateMap).map Prod.fst := by
        simp [List.map_map]
      have hnodupUnsorted : ((((entries.foldl stepAgg initAgg).dateMap).map (fun p =>
          ({ date := p.1, totalCost := p.2.cost, totalTokens := p.2.tokens,
             modelsUsed := p.2.models } : DailyUsage))).map (fun d => d.date)).Nodup := by
        rw [hmapdate]
        exact hnodupKeys
      have hperm := List.mergeSort_perm (((entries.foldl stepAgg initAgg).dateMap).map (fun p =>
          ({ date := p.1, totalCost := p.2.cost, totalTokens := p.2.tokens,
             modelsUsed := p.2.models } : DailyUsage)))
        (fun a b => decide (a.date ≤ b.date))
      have hnodupSorted : (((((entries.foldl stepAgg initAgg).dateMap).map (fun p =>
          ({ date := p.1, totalCost := p.2.cost, totalTokens := p.2.tokens,
             modelsUsed := p.2.models } : DailyUsage))).mergeSort
            (fun a b => decide (a.date ≤ b.date))).map (fun d => d.date)).Nodup :=
        ((hperm.map (fun d => d.date)).nodup_iff).mpr hnodupUnsorted
      have hne : (((((entries.foldl stepAgg initAgg).dateMap).map (fun p =>
          ({ date := p.1, totalCost := p.2.cost, totalTokens := p.2.tokens,
             modelsUsed := p.2.models } : DailyUsage))).mergeSort
            (fun a b => decide (a.date ≤ b.date))).Pairwise
          (fun a b => a.date ≠ b.date)) := by
        rw [List.Nodup, List.pairwise_map] at hnodupSorted
        exact hnodupSorted
      exact (hle.and hne).imp (fun hab => lt_of_le_of_ne hab.1 hab.2)

lemma listIncludes_iff_occurs (pat : List Char) (l : List Char) :
    listIncludes pat l = true ↔ pat <:+: l := by
  induction l with
  | nil => simp [listIncludes, List.isEmpty_iff]
  | cons c t ih =>
    rw [show listIncludes pat (c :: t) =
        (pat.isPrefixOf (c :: t) || listIncludes pat t) from rfl]
    simp only [Bool.or_eq_true, List.isPrefixOf_iff_prefix, ih]
    exact (List.infix_cons_iff).symm

lemma jsIncludes_trans (a b c : String) (h1 : jsIncludes a b = true)
    (h2 : jsIncludes b c = true) : jsIncludes a c = true := by
  unfold jsIncludes at h1 h2 ⊢
  rw [listIncludes_iff_occurs] at h1 h2 ⊢
  exact h2.trans h1

lemma or4_collapse (a b c d : Bool) (hc : c = true → a = true)
    (hd : d = true → b = true) : (a || b || c || d) = (a || b) := by
  cases a <;> cases b <;> cases c <;> cases d <;> simp_all

lemma or2_collapse (a b : Bool) (hb : b = true → a = true) : (a || b) = a := by
  cases a <;> cases b <;> simp_all

/-- C5 (amended): on every model name free of the reversed
"claude-3-…-family" alias spellings (claude-3-7-sonnet, claude-3.7-sonnet,
claude-3-5-sonnet, claude-3.5-sonnet, claude-3-5-haiku, claude-3.5-haiku,
claude-3-haiku) — the patterns `getModelPricing` tests but
`getModelDisplayName` omits — the display resolver applies the same
precedence as the pricing resolver: a name resolving to tier T gets T's
label, and a name resolving to no tier is returned unchanged. -/
theorem displayName_matches_pricing (m : String)
    (h1 : jsIncludes (jsToLower m) "claude-3-7-sonnet" = false)
    (h2 : jsIncludes (jsToLower m) "claude-3.7-sonnet" = false)
    (h3 : jsIncludes (jsToLower m) "claude-3-5-sonnet" = false)
    (h4 : jsIncludes (jsToLower m) "claude-3.5-sonnet" = false)
    (h5 : jsIncludes (jsToLower m) "claude-3-5-haiku" = false)
    (h6 : jsIncludes (jsToLower m) "claude-3.5-haiku" = false)
    (h7 : jsIncludes (jsToLower m) "claude-3-haiku" = false) :
    getModelDisplayName m =
      ((getModelTierName m).map displayLabel).getD m := by
  have t1 : jsIncludes (jsToLower m) "claude-opus-4-5" = true →
      jsIncludes (jsToLower m) "opus-4-5" = true :=
    fun h => jsIncludes_trans _ _ _ h (by decide)
  have t2 : jsIncludes (jsToLower m) "claude-opus-4.5" = true →
      jsIncludes (jsToLower m) "opus-4.5" = true :=
    fun h => jsIncludes_trans _ _ _ h (by decide)
  have t3 : jsIncludes (jsToLower m) "claude-opus-4-1" = true →
      jsIncludes (jsToLower m) "opus-4-1" = true :=
    fun h => jsIncludes_trans _ _ _ h (by decide)
  have t4 : jsIncludes (jsToLower m) "claude-opus-4.1" = true →
      jsIncludes (jsToLower m) "opus-4.1" = true :=
    fun h => jsIncludes_trans _ _ _ h (by decide)
  have t5 : jsIncludes (jsToLower m) "claude-opus-4" = true →
      jsIncludes (jsToLower m) "opus-4" = true :=
    fun h => jsIncludes_trans _ _ _ h (by decide)
  have t6 : jsIncludes (jsToLower m) "claude-sonnet-4-5" = true →
      jsIncludes (jsToLower m) "sonnet-4-5" = true :=
    fun h => jsIncludes_trans _ _ _ h (by decide)
  have t7 : jsIncludes (jsToLower m) "claude-sonnet-4.5" = true →
      jsIncludes (jsToLower m) "sonnet-4.5" = true :=
    fun h => jsIncludes_trans _ _ _ h (by decide)
  have t8 : jsIncludes (jsToLower m) "claude-sonnet-4" = true →
      jsIncludes (jsToLower m) "sonnet-4" = true :=
    fun h => jsIncludes_trans _ _ _ h (by decide)
  have t9 : jsIncludes (jsToLower m) "claude-haiku-4-5" = true →
      jsIncludes (jsToLower m) "haiku-4-5" = true :=
    fun h => jsIncludes_trans _ _ _ h (by decide)
  have t10 : jsIncludes (jsToLower m) "claude-haiku-4.5" = true →
      jsIncludes (jsToLower m) "haiku-4.5" = true :=
    fun h => jsIncludes_trans _ _ _ h (by decide)
  simp only [getModelDisplayName, getModelTierName]
  rw [or4_collapse _ _ _ _ t1 t2, or4_collapse _ _ _ _ t3 t4,
    or2_collapse _ _ t5, or4_collapse _ _ _ _ t6 t7, or2_collapse _ _ t8,
    or4_collapse _ _ _ _ t9 t10]
  simp only [h1, h2, h3, h4, h5, h6, h7, Bool.or_false]
  simp only [apply_ite (Option.map displayLabel),
    apply_ite (fun o : Option String => o.getD m), Option.map_some',
    Option.map_none', Option.getD_some, Option.getD_none]
  simp [displayLabel]

/-- Counterexample to C5 as stated: "claude-3-7-sonnet" resolves to the
sonnet-3.7 pricing tier, but its display name is the input unchanged, not
that tier's label "Claude Sonnet 3.7". -/
theorem displayName_diverges_from_pricing :
    getModelTierName "claude-3-7-sonnet" = some "sonnet-3.7" ∧
    getModelPricing "claude-3-7-sonnet" = some (priceOf "sonnet-3.7") ∧
    getModelDisplayName "claude-3-7-sonnet" = "claude-3-7-sonnet" ∧
    displayLabel "sonnet-3.7" = "Claude Sonnet 3.7" ∧
    "claude-3-7-sonnet" ≠ "Claude Sonnet 3.7" := by
  have ht : getModelTierName "claude-3-7-sonnet" = some "sonnet-3.7" := by decide
  exact ⟨ht, by unfold getModelPricing; rw [ht]; rfl, by decide, by decide, by decide⟩

/-- Closed witness for the amended C5 at a concrete alias-free model name. -/
theorem displayName_matches_pricing_witness :
    getModelDisplayName "claude-sonnet-4-5" =
      ((getModelTierName "claude-sonnet-4-5").map displayLabel).getD
        "claude-sonnet-4-5" :=
  displayName_matches_pricing "claude-sonnet-4-5"
    (by decide) (by decide) (by decide) (by decide)
    (by decide) (by decide) (by decide)
